import Mathlib

/-!
Shallow embedding of `src/streamlit_app.py`, a marketing-statement classifier:
the keyword dictionaries, `classify_statement`, `enrich_dataframe` and
`get_csv_download`, together with the fragments of pandas, pathlib and the
codec registry that those functions use.  Tables (pandas DataFrames) are
modelled as ordered association lists from column name to column values.
-/

namespace Marketing

/-- Values that appear in a table cell in this program: strings, integers,
booleans and lists of strings (the `labels` column).  Floats do not occur in
the modelled pipeline. -/
inductive PyVal where
  | str (s : String)
  | int (n : Int)
  | bool (b : Bool)
  | list (xs : List String)
deriving DecidableEq

/-- Python `repr` of a plain string without special characters (the only
strings rendered this way here are the dictionary labels). -/
def pyReprStr (s : String) : String := "'" ++ s ++ "'"

/-- Python `str()` on the cell values above.  `str` is the identity on
strings, integers print in decimal, booleans print as `True`/`False`, and a
list prints as the bracketed comma-separated `repr` of its elements. -/
def pyStr : PyVal → String
  | .str s => s
  | .int n => toString n
  | .bool b => if b then "True" else "False"
  | .list xs => "[" ++ String.intercalate ", " (xs.map pyReprStr) ++ "]"

/-- Python `str.lower` (ASCII fragment: `Char.toLower` maps `A`-`Z` to
`a`-`z` and fixes everything else; every phrase in the keyword dictionaries
is ASCII). -/
def pyLower (s : String) : String := ⟨s.data.map Char.toLower⟩

/-- Python substring containment `needle in hay` on strings: the character
sequence of `needle` is a contiguous infix of that of `hay`. -/
def strIn (needle hay : String) : Bool := decide (needle.data <:+: hay.data)

/-- The module-level `dictionaries` literal of `src/streamlit_app.py`
(lines 9-22), in its written order.  The Python value maps each label to a
`set`; since the only operation performed on a phrase set is `any`, the
iteration order of the set is irrelevant and a list in source order is a
faithful model. -/
def dictionaries : List (String × List String) :=
  [("urgency_marketing",
    ["limited", "limited time", "limited run", "limited edition", "order now",
     "last chance", "hurry", "while supplies last", "before they're gone",
     "selling out", "selling fast", "act now", "don't wait", "today only",
     "expires soon", "final hours", "almost gone"]),
   ("exclusive_marketing",
    ["exclusive", "exclusively", "exclusive offer", "exclusive deal",
     "members only", "vip", "special access", "invitation only",
     "premium", "privileged", "limited access", "select customers",
     "insider", "private sale", "early access"])]

/-- The dictionary labels in iteration order. -/
def dictLabels : List String := dictionaries.map Prod.fst

/-- Body of `classify_statement` after the `str()` coercion: lowercase the
text, then collect (in dictionary iteration order) every label one of whose
keywords occurs in the lowered text.  The Python loop appends `label` to
`matched` at most once per dictionary entry, which is exactly a filter of
the entries followed by projection to the label. -/
def classify_text (s : String) : List String :=
  let text_lower := pyLower s
  (dictionaries.filter fun p => p.2.any fun kw => strIn kw text_lower).map Prod.fst

/-- `classify_statement` (lines 28-35): `text_lower = str(text).lower()`,
then the keyword scan. -/
def classify_statement (text : PyVal) : List String :=
  classify_text (pyStr text)

/-- A pandas DataFrame, modelled as its ordered list of columns; each column
is a name paired with the list of its cell values in row order. -/
structure DF where
  cols : List (String × List PyVal)
deriving DecidableEq

/-- The column names in their current order (`df.columns`). -/
def DF.colNames (df : DF) : List String := df.cols.map Prod.fst

/-- Python `name in df.columns`. -/
def DF.hasCol (df : DF) (name : String) : Bool := df.cols.any fun p => p.1 == name

/-- Reading a column, `df[name]` (pandas column names are unique; `find?`
returns the first match). -/
def DF.getCol (df : DF) (name : String) : Option (List PyVal) :=
  (df.cols.find? fun p => p.1 == name).map Prod.snd

/-- Column assignment `df[name] = vals`: overwrite in place when the column
exists (keeping its position), otherwise append a new column at the end. -/
def DF.setCol (df : DF) (name : String) (vals : List PyVal) : DF :=
  if df.hasCol name then
    ⟨df.cols.map fun p => if p.1 == name then (p.1, vals) else p⟩
  else
    ⟨df.cols ++ [(name, vals)]⟩

/-- The number of rows (all columns of a well-formed DataFrame have the same
length, so the first column's length is taken). -/
def DF.nrows (df : DF) : Nat :=
  match df.cols with
  | [] => 0
  | c :: _ => c.2.length

/-- Python `lbl in cats` where `cats` is a cell of the `labels` column; the
enrichment loop only ever applies it to list cells. -/
def pyInList (lbl : String) : PyVal → Bool
  | .list xs => xs.contains lbl
  | _ => false

/-- The message of the `ValueError` raised on line 41. -/
def missingColumnMsg : String := "Input file must contain a 'Statement' column."

/-- `enrich_dataframe` (lines 38-50): validate that a `Statement` column
exists, work on a copy, add the `labels` column by classifying each
statement, then one boolean column per dictionary label (the lambda binds
the loop variable through a default argument, so each column tests its own
label).  The `ValueError` is modelled as `Except.error`. -/
def enrich_dataframe (df : DF) : Except String DF :=
  if df.hasCol "Statement" then
    let df1 := df.setCol "labels"
      (((df.getCol "Statement").getD []).map fun v => PyVal.list (classify_statement v))
    let df2 := dictionaries.foldl
      (fun d p => d.setCol p.1
        (((d.getCol "labels").getD []).map fun v => PyVal.bool (pyInList p.1 v)))
      df1
    Except.ok df2
  else
    Except.error missingColumnMsg

/-- Whether `csv` quotes a field under the default QUOTE_MINIMAL rule. -/
def csvNeedsQuote (s : String) : Bool :=
  s.data.any fun c => c == ',' || c == '"' || c == '\n' || c == '\r'

/-- A CSV field: quoted, with inner quotes doubled, when it contains a
delimiter, quote or line break; verbatim otherwise. -/
def csvField (s : String) : String :=
  if csvNeedsQuote s then
    "\"" ++ String.mk (s.data.flatMap fun c => if c == '"' then ['"', '"'] else [c]) ++ "\""
  else s

/-- One CSV line: the fields, quoted as needed, joined by commas. -/
def csvLine (fields : List String) : String :=
  String.intercalate "," (fields.map csvField)

/-- The textual cells of row `i`, one per column, in column order (the
default is never reached on a well-formed DataFrame). -/
def DF.rowCells (df : DF) (i : Nat) : List String :=
  df.cols.map fun p => pyStr (p.2.getD i (PyVal.str ""))

/-- `df.to_csv(index=False)`: the header line with all column names in their
current order, then one line per row in row order, each line terminated by a
newline. -/
def df_to_csv (df : DF) : String :=
  csvLine df.colNames ++ "\n" ++
    String.join ((List.range df.nrows).map fun i => csvLine (df.rowCells i) ++ "\n")

/-- CPython `encodings.normalize_encoding` (Python 3.9+): walk the name,
keep ASCII alphanumerics and dots, and collapse every maximal run of other
characters between two kept characters into one underscore.  (CPython also
treats non-ASCII alphanumerics as kept-but-dropped; the names this program
looks up contain none, and the one non-ASCII character it does pass — the
non-breaking hyphen below — is not alphanumeric in either reading.) -/
def normEncAux : List Char → Bool → List Char → List Char
  | [], _, acc => acc
  | c :: rest, punct, acc =>
    if c.isAlphanum || c == '.' then
      normEncAux rest false ((if punct && !acc.isEmpty then acc ++ ['_'] else acc) ++ [c])
    else
      normEncAux rest true acc

/-- See `normEncAux`. -/
def normalizeEncoding (s : String) : String := ⟨normEncAux s.data false []⟩

/-- The names that the `encodings` package resolves to the UTF-8 codec:
`utf_8` itself plus its aliases from `encodings/aliases.py`. -/
def utf8AliasNames : List String :=
  ["utf_8", "u8", "utf", "utf8", "utf8_ucs2", "utf8_ucs4", "cp65001"]

/-- Python `str.encode(encoding)`, restricted to the UTF-8 codec family (the
only codec this program uses): the registry lowercases and normalizes the
requested name; a name resolving to UTF-8 encodes the (well-formed) string
and any other name raises `LookupError`, modelled as `Except.error`. -/
def pyEncode (encoding : String) (s : String) : Except String ByteArray :=
  if utf8AliasNames.contains (normalizeEncoding (pyLower encoding)) then
    Except.ok s.toUTF8
  else
    Except.error ("unknown encoding: " ++ encoding)

/-- Index of the last occurrence of `target`, Python `str.rfind`. -/
def rfindChar (target : Char) : List Char → Option Nat
  | [] => none
  | c :: cs =>
    match rfindChar target cs with
    | some i => some (i + 1)
    | none => if c == target then some 0 else none

/-- `Path(filename).name`: the last path component (for upload names, which
carry no trailing separator). -/
def pyName (filename : String) : String :=
  match rfindChar '/' filename.data with
  | some i => ⟨filename.data.drop (i + 1)⟩
  | none => filename

/-- Index of the last `.` in the character list. -/
def rfindDot (cs : List Char) : Option Nat := rfindChar '.' cs

/-- `Path(filename).stem`: the last component with its final extension
removed; pathlib drops the suffix only when the last dot is neither the
first nor past the second-to-last character of the name. -/
def pyStem (filename : String) : String :=
  let name := pyName filename
  match rfindDot name.data with
  | some i => if 0 < i ∧ i < name.data.length - 1 then ⟨name.data.take i⟩ else name
  | none => name

/-- `get_csv_download` (lines 53-57): render the DataFrame to CSV, encode it
with the encoding name literally written in the source — `"utf‑8"` with a
U+2011 non-breaking hyphen — and suggest `stem + "_classified.csv"` as the
download name. -/
def get_csv_download (df : DF) (original_name : String) :
    Except String (ByteArray × String) :=
  (pyEncode "utf‑8" (df_to_csv df)).map fun csv_bytes =>
    (csv_bytes, pyStem original_name ++ "_classified.csv")

/-- A heap of DataFrame objects, for stating that `enrich_dataframe` does
not mutate its argument: references are list indices, `df.copy()` allocates
a fresh index, and the three column assignments of the source mutate only
the copy. -/
abbrev Heap := List DF

/-- In-place mutation of the object at reference `r` (no-op on a dangling
reference). -/
def heapUpdate (h : Heap) (r : Nat) (f : DF → DF) : Heap :=
  match h[r]? with
  | some v => h.set r (f v)
  | none => h

/-- `enrich_dataframe` at the object level: read the argument object, check
the `Statement` column, allocate `df.copy()` as a fresh object, perform the
`labels` assignment and the per-label boolean assignments as mutations of
the copy, and return the copy's reference. -/
def runEnrich (h : Heap) (r : Nat) : Except String (Heap × Nat) :=
  match h[r]? with
  | none => Except.error "invalid reference"
  | some df =>
    if df.hasCol "Statement" then
      let c := h.length
      let h1 := h ++ [df]
      let h2 := heapUpdate h1 c fun d =>
        d.setCol "labels"
          (((d.getCol "Statement").getD []).map fun v => PyVal.list (classify_statement v))
      let h3 := dictionaries.foldl
        (fun hh p => heapUpdate hh c fun d =>
          d.setCol p.1
            (((d.getCol "labels").getD []).map fun v => PyVal.bool (pyInList p.1 v)))
        h2
      Except.ok (h3, c)
    else
      Except.error missingColumnMsg

/-- The `labels` column built by `enrich_dataframe` from the statements. -/
def labelsColumn (stmts : List PyVal) : List PyVal :=
  stmts.map fun v => PyVal.list (classify_statement v)

/-- The boolean column that `enrich_dataframe` builds for label `L`. -/
def boolColumn (L : String) (stmts : List PyVal) : List PyVal :=
  stmts.map fun v => PyVal.bool ((classify_statement v).contains L)

/-- Stripping the derived columns (the `labels` list and the per-label
boolean columns) from a table, as claim C7 describes. -/
def stripDerived (df : DF) : DF :=
  ⟨df.cols.filter fun p => !(p.1 == "labels" || decide (p.1 ∈ dictLabels))⟩

/-! Helper lemmas about the DataFrame operations. -/

theorem DF.hasCol_iff {df : DF} {n : String} :
    df.hasCol n = true ↔ ∃ p ∈ df.cols, p.1 = n := by
  simp [DF.hasCol, List.any_eq_true]

theorem DF.hasCol_of_getCol {df : DF} {n : String} {v : List PyVal}
    (h : df.getCol n = some v) : df.hasCol n = true := by
  unfold DF.getCol at h
  cases hf : df.cols.find? (fun p => p.1 == n) with
  | none => rw [hf] at h; simp at h
  | some q =>
    exact DF.hasCol_iff.mpr
      ⟨q, List.mem_of_find?_eq_some hf, by simpa using List.find?_some hf⟩

theorem DF.find?_col {df : DF} {n : String} (h : df.hasCol n = true) :
    ∃ q, df.cols.find? (fun p => p.1 == n) = some q ∧ q.1 = n := by
  unfold DF.hasCol at h
  rw [List.any_eq_true] at h
  obtain ⟨p, hmem, hp⟩ := h
  have hs : (df.cols.find? fun q => q.1 == n).isSome :=
    List.find?_isSome.mpr ⟨p, hmem, hp⟩
  obtain ⟨q, hq⟩ := Option.isSome_iff_exists.mp hs
  exact ⟨q, hq, by simpa using List.find?_some hq⟩

theorem DF.getCol_isSome_of_hasCol {df : DF} {n : String}
    (h : df.hasCol n = true) : ∃ v, df.getCol n = some v := by
  obtain ⟨q, hq, -⟩ := DF.find?_col h
  exact ⟨q.2, by simp [DF.getCol, hq]⟩

theorem DF.cols_ne_nil_of_hasCol {df : DF} {n : String}
    (h : df.hasCol n = true) : df.cols ≠ [] := by
  intro hc
  rw [DF.hasCol, hc] at h
  simp at h

theorem DF.hasCol_eq_false_of_not_mem {df : DF} {n : String}
    (h : n ∉ df.colNames) : df.hasCol n = false := by
  rw [Bool.eq_false_iff]
  intro hc
  obtain ⟨p, hmem, hp⟩ := DF.hasCol_iff.mp hc
  exact h (hp ▸ List.mem_map_of_mem Prod.fst hmem)

theorem DF.getCol_setCol_self (df : DF) (n : String) (v : List PyVal) :
    (df.setCol n v).getCol n = some v := by
  unfold DF.setCol
  by_cases h : df.hasCol n = true
  · rw [if_pos h]
    unfold DF.getCol
    rw [List.find?_map]
    have hg : ((fun p : String × List PyVal => p.1 == n) ∘
        fun p => if p.1 == n then (p.1, v) else p) =
        fun p : String × List PyVal => p.1 == n := by
      funext p
      by_cases hp : p.1 = n <;> simp [hp]
    rw [hg]
    obtain ⟨q, hq, hqn⟩ := DF.find?_col h
    rw [hq]
    simp [hqn]
  · rw [if_neg h]
    unfold DF.getCol
    rw [List.find?_append]
    have h0 : df.cols.find? (fun p => p.1 == n) = none := by
      rw [List.find?_eq_none]
      intro p hp hpn
      exact h (DF.hasCol_iff.mpr ⟨p, hp, by simpa using hpn⟩)
    simp [h0]

theorem DF.getCol_setCol_ne (df : DF) {n m : String} (hne : m ≠ n) (v : List PyVal) :
    (df.setCol n v).getCol m = df.getCol m := by
  unfold DF.setCol
  by_cases h : df.hasCol n = true
  · rw [if_pos h]
    unfold DF.getCol
    rw [List.find?_map]
    have hg : ((fun p : String × List PyVal => p.1 == m) ∘
        fun p => if p.1 == n then (p.1, v) else p) =
        fun p : String × List PyVal => p.1 == m := by
      funext p
      by_cases hp : p.1 = n <;> simp [hp]
    rw [hg]
    cases hf : df.cols.find? (fun p => p.1 == m) with
    | none => rfl
    | some q =>
      have hq : q.1 = m := by simpa using List.find?_some hf
      simp only [Option.map_some']
      have hfix : (if q.1 == n then (q.1, v) else q) = q := by
        rw [if_neg]
        simp [hq, hne]
      rw [hfix]
  · rw [if_neg h]
    unfold DF.getCol
    rw [List.find?_append]
    have h1 : [(n, v)].find? (fun p => p.1 == m) = none := by
      rw [List.find?_singleton, if_neg]
      simp [Ne.symm hne]
    rw [h1, Option.or_none]

theorem DF.hasCol_setCol_ne (df : DF) {n m : String} (hne : m ≠ n) (v : List PyVal) :
    (df.setCol n v).hasCol m = df.hasCol m := by
  unfold DF.setCol
  by_cases h : df.hasCol n = true
  · rw [if_pos h]
    unfold DF.hasCol
    rw [List.any_map]
    congr 1
    funext p
    by_cases hp : p.1 = n <;> simp [hp]
  · rw [if_neg h]
    unfold DF.hasCol
    rw [List.any_append]
    have h1 : [(n, v)].any (fun p => p.1 == m) = false := by
      simp [Ne.symm hne]
    rw [h1, Bool.or_false]

theorem DF.colNames_setCol_of_has {df : DF} {n : String} (h : df.hasCol n = true)
    (v : List PyVal) : (df.setCol n v).colNames = df.colNames := by
  unfold DF.setCol
  rw [if_pos h]
  unfold DF.colNames
  rw [List.map_map]
  congr 1
  funext p
  by_cases hp : p.1 = n <;> simp [hp]

theorem DF.colNames_setCol_of_not {df : DF} {n : String} (h : ¬ df.hasCol n = true)
    (v : List PyVal) : (df.setCol n v).colNames = df.colNames ++ [n] := by
  unfold DF.setCol
  rw [if_neg h]
  simp [DF.colNames]

theorem DF.cols_setCol_ne_nil {df : DF} (h : df.cols ≠ []) (n : String) (v : List PyVal) :
    (df.setCol n v).cols ≠ [] := by
  unfold DF.setCol
  split <;> simp [h]

theorem DF.nrows_setCol_of_not {df : DF} {n : String} (h : ¬ df.hasCol n = true)
    (v : List PyVal) (hne : df.cols ≠ []) : (df.setCol n v).nrows = df.nrows := by
  unfold DF.setCol
  rw [if_neg h]
  cases hc : df.cols with
  | nil => exact absurd hc hne
  | cons c rest => simp [DF.nrows, hc]

/-- Unfolding `enrich_dataframe` on a table with a `Statement` column: the
result is the input with the `labels` column assigned, then the two boolean
columns assigned in dictionary order. -/
theorem enrich_eq (df : DF) {stmts : List PyVal}
    (hS : df.hasCol "Statement" = true)
    (hst : df.getCol "Statement" = some stmts) :
    enrich_dataframe df = Except.ok
      (((df.setCol "labels" (labelsColumn stmts)).setCol "urgency_marketing"
          (boolColumn "urgency_marketing" stmts)).setCol "exclusive_marketing"
          (boolColumn "exclusive_marketing" stmts)) := by
  unfold enrich_dataframe
  rw [if_pos hS, hst]
  simp only [dictionaries, List.foldl_cons, List.foldl_nil, Option.getD_some]
  rw [DF.getCol_setCol_self]
  simp only [Option.getD_some, List.map_map]
  rw [DF.getCol_setCol_ne _ (by decide), DF.getCol_setCol_self]
  simp only [Option.getD_some, List.map_map]
  rfl

/-! Lemmas about the classifier. -/

theorem phrases_lowercase : ∀ p ∈ dictionaries, ∀ kw ∈ p.2, pyLower kw = kw := by decide

theorem dictLabels_nodup : dictLabels.Nodup := by decide

theorem mem_unique_of_nodup_keys {l : List (String × List String)}
    (hn : (l.map Prod.fst).Nodup) {a : String} {b c : List String}
    (h1 : (a, b) ∈ l) (h2 : (a, c) ∈ l) : b = c := by
  induction l with
  | nil => simp at h1
  | cons p l ih =>
    rw [List.map_cons, List.nodup_cons] at hn
    rcases List.mem_cons.mp h1 with h1e | h1m
    · rcases List.mem_cons.mp h2 with h2e | h2m
      · rw [← h1e] at h2e
        exact ((Prod.mk.injEq _ _ _ _).mp h2e.symm).2
      · exfalso
        apply hn.1
        rw [← h1e]
        show a ∈ l.map Prod.fst
        exact List.mem_map_of_mem Prod.fst h2m
    · rcases List.mem_cons.mp h2 with h2e | h2m
      · exfalso
        apply hn.1
        rw [← h2e]
        show a ∈ l.map Prod.fst
        exact List.mem_map_of_mem Prod.fst h1m
      · exact ih hn.2 h1m h2m

theorem classify_text_sublist (s : String) : (classify_text s).Sublist dictLabels :=
  List.Sublist.map Prod.fst (List.filter_sublist dictionaries)

/-- C1: for every text input `t` and every entry `(L, phrases)` of the
keyword dictionary, `L` appears in `classify_statement t` iff at least one
phrase occurs as a case-insensitive contiguous substring of the text
representation of `t` (pure substring containment, with no word-boundary
condition). -/
theorem classify_label_iff_phrase_match (t : PyVal) (L : String) (phr : List String)
    (h : (L, phr) ∈ dictionaries) :
    L ∈ classify_statement t ↔
      ∃ kw ∈ phr, (pyLower kw).data <:+: (pyLower (pyStr t)).data := by
  unfold classify_statement classify_text
  simp only [List.mem_map, List.mem_filter, List.any_eq_true, strIn, decide_eq_true_eq]
  constructor
  · rintro ⟨⟨qa, qb⟩, ⟨hqd, kw, hkw, hin⟩, hql⟩
    dsimp at hql
    subst hql
    have hphr : qb = phr := mem_unique_of_nodup_keys dictLabels_nodup hqd h
    subst hphr
    have hlow : pyLower kw = kw := phrases_lowercase _ hqd kw hkw
    exact ⟨kw, hkw, by rw [hlow]; exact hin⟩
  · rintro ⟨kw, hkw, hinf⟩
    have hlow : pyLower kw = kw := phrases_lowercase _ h kw hkw
    exact ⟨(L, phr), ⟨h, kw, hkw, by rw [hlow] at hinf; exact hinf⟩, rfl⟩

/-- The hypotheses of `classify_label_iff_phrase_match` are satisfiable:
instantiated at the text "Act NOW!" and the urgency entry. -/
theorem classify_label_iff_phrase_match_witness :
    "urgency_marketing" ∈ classify_statement (PyVal.str "Act NOW!") ↔
      ∃ kw ∈ (dictionaries.headD ("", [])).2,
        (pyLower kw).data <:+: (pyLower (pyStr (PyVal.str "Act NOW!"))).data :=
  classify_label_iff_phrase_match (PyVal.str "Act NOW!") "urgency_marketing"
    (dictionaries.headD ("", [])).2 (by decide)

/-- C8: for every text input, the classifier's result list is a sublist of
the dictionary labels in iteration order (hence ordered by dictionary
iteration order) and contains no label twice. -/
theorem classify_dict_order_nodup (text : PyVal) :
    (classify_statement text).Sublist dictLabels ∧ (classify_statement text).Nodup :=
  ⟨classify_text_sublist (pyStr text),
   (classify_text_sublist (pyStr text)).nodup dictLabels_nodup⟩

/-- C9: `classify_statement` is a total function (it always returns a label
list, with no error outcome in its type): every input value is first coerced
to its text representation by `str()`, and the empty string, purely numeric
input and unicode text are all classified without failure. -/
theorem classify_total_on_text_coercible :
    (∀ text : PyVal, classify_statement text = classify_text (pyStr text)) ∧
    (∀ text : PyVal, classify_statement text = classify_statement (PyVal.str (pyStr text))) ∧
    classify_statement (PyVal.str "") = [] ∧
    classify_statement (PyVal.int 12345) = [] ∧
    classify_statement (PyVal.str "Übergröße — 速いです") = [] :=
  ⟨fun _ => rfl, fun _ => rfl, by decide, by decide, by decide⟩

/-! The facts established by a successful enrichment, read off the chain of
column assignments. -/

theorem enrich_ok_facts (df : DF) {stmts : List PyVal}
    (hS : df.hasCol "Statement" = true)
    (hst : df.getCol "Statement" = some stmts)
    {df' : DF} (h : enrich_dataframe df = Except.ok df') :
    df'.getCol "labels" = some (labelsColumn stmts) ∧
    df'.getCol "urgency_marketing" = some (boolColumn "urgency_marketing" stmts) ∧
    df'.getCol "exclusive_marketing" = some (boolColumn "exclusive_marketing" stmts) ∧
    (∀ c : String, c ≠ "labels" → c ≠ "urgency_marketing" → c ≠ "exclusive_marketing" →
      df'.getCol c = df.getCol c) := by
  rw [enrich_eq df hS hst] at h
  injection h with h'
  subst h'
  refine ⟨?_, ?_, ?_, ?_⟩
  · rw [DF.getCol_setCol_ne _ (show ("labels" : String) ≠ "exclusive_marketing" by decide),
      DF.getCol_setCol_ne _ (show ("labels" : String) ≠ "urgency_marketing" by decide),
      DF.getCol_setCol_self]
  · rw [DF.getCol_setCol_ne _
      (show ("urgency_marketing" : String) ≠ "exclusive_marketing" by decide),
      DF.getCol_setCol_self]
  · rw [DF.getCol_setCol_self]
  · intro c hc1 hc2 hc3
    rw [DF.getCol_setCol_ne _ hc3, DF.getCol_setCol_ne _ hc2, DF.getCol_setCol_ne _ hc1]

theorem DF.setCol3_colNames (df : DF) (n1 n2 n3 : String) (v1 v2 v3 : List PyVal)
    (h1 : df.hasCol n1 = false) (h2 : df.hasCol n2 = false) (h3 : df.hasCol n3 = false)
    (h21 : n2 ≠ n1) (h31 : n3 ≠ n1) (h32 : n3 ≠ n2) :
    (((df.setCol n1 v1).setCol n2 v2).setCol n3 v3).colNames = df.colNames ++ [n1, n2, n3] := by
  have hA : (df.setCol n1 v1).hasCol n2 = false := by
    rw [DF.hasCol_setCol_ne _ h21]
    exact h2
  have hB : ((df.setCol n1 v1).setCol n2 v2).hasCol n3 = false := by
    rw [DF.hasCol_setCol_ne _ h32, DF.hasCol_setCol_ne _ h31]
    exact h3
  rw [DF.colNames_setCol_of_not (by simp [hB]), DF.colNames_setCol_of_not (by simp [hA]),
    DF.colNames_setCol_of_not (by simp [h1])]
  simp

theorem DF.setCol3_nrows (df : DF) (n1 n2 n3 : String) (v1 v2 v3 : List PyVal)
    (h1 : df.hasCol n1 = false) (h2 : df.hasCol n2 = false) (h3 : df.hasCol n3 = false)
    (h21 : n2 ≠ n1) (h31 : n3 ≠ n1) (h32 : n3 ≠ n2) (hnil : df.cols ≠ []) :
    (((df.setCol n1 v1).setCol n2 v2).setCol n3 v3).nrows = df.nrows := by
  have hA : (df.setCol n1 v1).hasCol n2 = false := by
    rw [DF.hasCol_setCol_ne _ h21]
    exact h2
  have hB : ((df.setCol n1 v1).setCol n2 v2).hasCol n3 = false := by
    rw [DF.hasCol_setCol_ne _ h32, DF.hasCol_setCol_ne _ h31]
    exact h3
  have hn1 : (df.setCol n1 v1).cols ≠ [] := DF.cols_setCol_ne_nil hnil _ _
  have hn2 : ((df.setCol n1 v1).setCol n2 v2).cols ≠ [] := DF.cols_setCol_ne_nil hn1 _ _
  rw [DF.nrows_setCol_of_not (by simp [hB]) _ hn2, DF.nrows_setCol_of_not (by simp [hA]) _ hn1,
    DF.nrows_setCol_of_not (by simp [h1]) _ hnil]

/-- A table used to instantiate the enrichment theorems. -/
def dfW : DF := ⟨[("Statement", [PyVal.str "Act now", PyVal.str "hello"])]⟩

/-- The enrichment of `dfW`. -/
def dfWOut : DF :=
  ⟨[("Statement", [PyVal.str "Act now", PyVal.str "hello"]),
    ("labels", [PyVal.list ["urgency_marketing"], PyVal.list []]),
    ("urgency_marketing", [PyVal.bool true, PyVal.bool false]),
    ("exclusive_marketing", [PyVal.bool false, PyVal.bool false])]⟩

/-- A table that already carries a column named `labels` next to its
`Statement` column. -/
def dfCollision : DF := ⟨[("Statement", [PyVal.str ""]), ("labels", [PyVal.int 7])]⟩

/-- C3 as frozen is false on the code: on a table that already has a column
named `labels` (here holding the integer 7), enrichment overwrites that
original column in place instead of leaving it unchanged. -/
theorem enrich_overwrites_existing_labels_column :
    dfCollision.hasCol "Statement" = true ∧
    dfCollision.getCol "labels" = some [PyVal.int 7] ∧
    (enrich_dataframe dfCollision).toOption.map (fun d => d.getCol "labels") =
      some (some [PyVal.list []]) := by decide

/-- C3 (amended): for every table with a `Statement` column none of whose
columns is named `labels` or a dictionary label, enrichment preserves the
row count, the row order and every original column unchanged, and appends
exactly the `labels` column followed by one column per dictionary key (a
pre-existing column with one of those names would instead be overwritten in
place). -/
theorem enrich_preserves_columns (df df' : DF)
    (hS : df.hasCol "Statement" = true)
    (hfresh : ∀ c ∈ df.colNames, c ≠ "labels" ∧ c ∉ dictLabels)
    (h : enrich_dataframe df = Except.ok df') :
    df'.nrows = df.nrows ∧
    (∀ c ∈ df.colNames, df'.getCol c = df.getCol c) ∧
    df'.colNames = df.colNames ++ "labels" :: dictLabels := by
  obtain ⟨stmts, hst⟩ := DF.getCol_isSome_of_hasCol hS
  have hnil : df.cols ≠ [] := DF.cols_ne_nil_of_hasCol hS
  have hlab : df.hasCol "labels" = false :=
    DF.hasCol_eq_false_of_not_mem fun hm => (hfresh _ hm).1 rfl
  have hcu : df.hasCol "urgency_marketing" = false :=
    DF.hasCol_eq_false_of_not_mem fun hm => (hfresh _ hm).2 (by decide)
  have hce : df.hasCol "exclusive_marketing" = false :=
    DF.hasCol_eq_false_of_not_mem fun hm => (hfresh _ hm).2 (by decide)
  have hother := (enrich_ok_facts df hS hst h).2.2.2
  rw [enrich_eq df hS hst] at h
  injection h with h'
  subst h'
  refine ⟨?_, ?_, ?_⟩
  · exact DF.setCol3_nrows df _ _ _ _ _ _ hlab hcu hce (by decide) (by decide) (by decide) hnil
  · intro c hc
    obtain ⟨hc1, hc2⟩ := hfresh c hc
    exact hother c hc1 (fun hh => hc2 (hh ▸ (by decide : "urgency_marketing" ∈ dictLabels)))
      (fun hh => hc2 (hh ▸ (by decide : "exclusive_marketing" ∈ dictLabels)))
  · rw [DF.setCol3_colNames df _ _ _ _ _ _ hlab hcu hce (by decide) (by decide) (by decide)]
    simp [dictLabels, dictionaries]

/-- The hypotheses of `enrich_preserves_columns` are satisfiable: the
two-row table `dfW` enriches to `dfWOut` with the stated shape. -/
theorem enrich_preserves_columns_witness :
    dfWOut.nrows = dfW.nrows ∧ dfWOut.colNames = dfW.colNames ++ "labels" :: dictLabels :=
  ⟨(enrich_preserves_columns dfW dfWOut (by decide) (by decide) (by rfl)).1,
   (enrich_preserves_columns dfW dfWOut (by decide) (by decide) (by rfl)).2.2⟩

/-- C4: for every table whose schema lacks a `Statement` column — with zero
rows or with many — `enrich_dataframe` fails with the missing-column
`ValueError`, raised by the up-front check before any row is classified. -/
theorem enrich_missing_statement_errors (df : DF) (h : df.hasCol "Statement" = false) :
    enrich_dataframe df = Except.error missingColumnMsg := by
  unfold enrich_dataframe
  rw [if_neg (by simp [h])]

/-- The hypothesis of `enrich_missing_statement_errors` is satisfiable, both
for a zero-row, zero-column table and for a three-row table with a
differently named text column. -/
theorem enrich_missing_statement_errors_witness :
    enrich_dataframe ⟨[]⟩ = Except.error missingColumnMsg ∧
    enrich_dataframe ⟨[("Text", [PyVal.str "a", PyVal.str "b", PyVal.str "c"])]⟩ =
      Except.error missingColumnMsg :=
  ⟨enrich_missing_statement_errors _ (by decide),
   enrich_missing_statement_errors _ (by decide)⟩

/-- C5: in every successfully enriched table, each dictionary label's
boolean column is exactly the pointwise membership test of that label in the
row's `labels` cell — a pure function of (labels list, target label), the
same test for every column. -/
theorem enrich_bool_column_from_labels (df df' : DF)
    (h : enrich_dataframe df = Except.ok df') (L : String) (phr : List String)
    (hL : (L, phr) ∈ dictionaries) :
    df'.getCol L =
      some (((df'.getCol "labels").getD []).map fun cell =>
        PyVal.bool (pyInList L cell)) := by
  by_cases hS : df.hasCol "Statement" = true
  · obtain ⟨stmts, hst⟩ := DF.getCol_isSome_of_hasCol hS
    obtain ⟨hlab, hcu, hce, -⟩ := enrich_ok_facts df hS hst h
    have hL2 : L = "urgency_marketing" ∨ L = "exclusive_marketing" := by
      have hm := List.mem_map_of_mem Prod.fst hL
      simpa [dictionaries] using hm
    rcases hL2 with rfl | rfl
    · rw [hcu, hlab]
      simp only [Option.getD_some, labelsColumn, boolColumn, List.map_map]
      rfl
    · rw [hce, hlab]
      simp only [Option.getD_some, labelsColumn, boolColumn, List.map_map]
      rfl
  · unfold enrich_dataframe at h
    rw [if_neg hS] at h
    exact absurd h (by simp)

/-- The hypotheses of `enrich_bool_column_from_labels` are satisfiable:
instantiated at `dfW`, its enrichment `dfWOut` and the urgency label. -/
theorem enrich_bool_column_from_labels_witness :
    dfWOut.getCol "urgency_marketing" =
      some (((dfWOut.getCol "labels").getD []).map fun cell =>
        PyVal.bool (pyInList "urgency_marketing" cell)) :=
  enrich_bool_column_from_labels dfW dfWOut (by rfl) "urgency_marketing"
    (dictionaries.headD ("", [])).2 (by decide)

/-! The export helper. -/

theorem pyEncode_utf8_ok (s : String) : pyEncode "utf‑8" s = Except.ok s.toUTF8 := by
  unfold pyEncode
  rw [if_pos]
  decide

/-- C2: for every table and filename, `get_csv_download` succeeds — the
text-encoding step cannot raise, because the codec lookup normalizes the
source's literal encoding name (with its U+2011 non-breaking hyphen) to
`utf_8` — and returns the UTF-8 bytes of the CSV rendering, whose first
line is the header carrying all column names in their current order. -/
theorem get_csv_download_serializes (df : DF) (original_name : String) :
    ∃ body, get_csv_download df original_name =
      Except.ok ((csvLine df.colNames ++ "\n" ++ body).toUTF8,
        pyStem original_name ++ "_classified.csv") := by
  refine ⟨String.join ((List.range df.nrows).map fun i => csvLine (df.rowCells i) ++ "\n"), ?_⟩
  unfold get_csv_download
  rw [pyEncode_utf8_ok]
  rfl

/-- C10: the suggested filename is always `Path(original).stem` — the base
name with only its final extension stripped — plus `"_classified.csv"`;
concretely `data.csv` yields `data_classified.csv` and `report.v2.csv`
yields `report.v2_classified.csv`. -/
theorem suggested_filename_strips_final_extension :
    (∀ (df : DF) (nm : String), ∃ b,
      get_csv_download df nm = Except.ok (b, pyStem nm ++ "_classified.csv")) ∧
    pyStem "data.csv" ++ "_classified.csv" = "data_classified.csv" ∧
    pyStem "report.v2.csv" ++ "_classified.csv" = "report.v2_classified.csv" := by
  refine ⟨fun df nm => ⟨(df_to_csv df).toUTF8, ?_⟩, by decide, by decide⟩
  unfold get_csv_download
  rw [pyEncode_utf8_ok]
  rfl

/-! Non-mutation of the input object. -/

theorem heapUpdate_getElem?_ne {h : Heap} {r c : Nat} (hne : c ≠ r) (f : DF → DF) :
    (heapUpdate h c f)[r]? = h[r]? := by
  unfold heapUpdate
  cases hc : h[c]? with
  | none => rfl
  | some v => exact List.getElem?_set_ne hne

/-- C6: running `enrich_dataframe` on the object at reference `r` leaves
that object untouched: the enriched table lives at a freshly allocated
reference (the `df.copy()`), and re-reading `r` afterwards still yields the
original table unchanged. -/
theorem enrich_does_not_mutate_input (h : Heap) (r : Nat) (df : DF)
    (hr : h[r]? = some df) (hS : df.hasCol "Statement" = true) :
    ∃ h2 c, runEnrich h r = Except.ok (h2, c) ∧ c ≠ r ∧ h2[r]? = some df := by
  have hrlen : r < h.length := by
    by_contra hge
    rw [List.getElem?_eq_none (by omega)] at hr
    simp at hr
  unfold runEnrich
  rw [hr]
  dsimp only
  rw [if_pos hS]
  refine ⟨_, h.length, rfl, by omega, ?_⟩
  simp only [dictionaries, List.foldl_cons, List.foldl_nil]
  rw [heapUpdate_getElem?_ne (by omega), heapUpdate_getElem?_ne (by omega),
    heapUpdate_getElem?_ne (by omega)]
  rw [List.getElem?_append_left hrlen]
  exact hr

/-- The hypotheses of `enrich_does_not_mutate_input` are satisfiable: a
one-object heap holding `dfW`. -/
theorem enrich_does_not_mutate_input_witness :
    ∃ h2 c, runEnrich [dfW] 0 = Except.ok (h2, c) ∧ c ≠ 0 ∧ h2[0]? = some dfW :=
  enrich_does_not_mutate_input [dfW] 0 dfW (by rfl) (by decide)

/-! Re-enrichment after stripping the derived columns. -/

theorem find?_filter_keep {l : List (String × List PyVal)} {n : String}
    (h1 : n ≠ "labels") (h2 : n ∉ dictLabels) :
    (l.filter fun p => !(p.1 == "labels" || decide (p.1 ∈ dictLabels))).find?
        (fun p => p.1 == n) = l.find? (fun p => p.1 == n) := by
  induction l with
  | nil => rfl
  | cons a l ih =>
    by_cases ha : a.1 = n
    · have hkeep : (!(a.1 == "labels" || decide (a.1 ∈ dictLabels))) = true := by
        rw [ha]
        simp [h1, h2]
      have hfc : (a :: l).filter (fun p => !(p.1 == "labels" || decide (p.1 ∈ dictLabels))) =
          a :: l.filter (fun p => !(p.1 == "labels" || decide (p.1 ∈ dictLabels))) :=
        List.filter_cons_of_pos hkeep
      rw [hfc, List.find?_cons_of_pos _ (by simp [ha]), List.find?_cons_of_pos _ (by simp [ha])]
    · by_cases hkeep : (!(a.1 == "labels" || decide (a.1 ∈ dictLabels))) = true
      · have hfc : (a :: l).filter (fun p => !(p.1 == "labels" || decide (p.1 ∈ dictLabels))) =
            a :: l.filter (fun p => !(p.1 == "labels" || decide (p.1 ∈ dictLabels))) :=
          List.filter_cons_of_pos hkeep
        rw [hfc, List.find?_cons_of_neg _ (by simp [ha]), List.find?_cons_of_neg _ (by simp [ha])]
        exact ih
      · have hfc : (a :: l).filter (fun p => !(p.1 == "labels" || decide (p.1 ∈ dictLabels))) =
            l.filter (fun p => !(p.1 == "labels" || decide (p.1 ∈ dictLabels))) :=
          List.filter_cons_of_neg (by simpa using hkeep)
        rw [hfc, List.find?_cons_of_neg _ (by simp [ha])]
        exact ih

theorem getCol_stripDerived {d : DF} {n : String} (h1 : n ≠ "labels")
    (h2 : n ∉ dictLabels) : (stripDerived d).getCol n = d.getCol n := by
  unfold stripDerived DF.getCol
  rw [find?_filter_keep h1 h2]

/-- C7: enriching, stripping only the derived columns (the `labels` list and
the per-label boolean columns) and enriching again succeeds and reproduces
exactly the boolean columns of the first enrichment. -/
theorem enrich_idempotent_on_bool_columns (df e1 : DF)
    (h1 : enrich_dataframe df = Except.ok e1) :
    ∃ e2, enrich_dataframe (stripDerived e1) = Except.ok e2 ∧
      ∀ L ∈ dictLabels, e2.getCol L = e1.getCol L := by
  by_cases hS : df.hasCol "Statement" = true
  · obtain ⟨stmts, hst⟩ := DF.getCol_isSome_of_hasCol hS
    obtain ⟨hlab, hcu, hce, hother⟩ := enrich_ok_facts df hS hst h1
    have hstE : e1.getCol "Statement" = some stmts := by
      rw [hother "Statement" (by decide) (by decide) (by decide)]
      exact hst
    have hstS : (stripDerived e1).getCol "Statement" = some stmts := by
      rw [getCol_stripDerived (by decide) (by decide)]
      exact hstE
    have hSs : (stripDerived e1).hasCol "Statement" = true := DF.hasCol_of_getCol hstS
    have h2run : ∃ e2, enrich_dataframe (stripDerived e1) = Except.ok e2 := by
      rw [enrich_eq _ hSs hstS]
      exact ⟨_, rfl⟩
    obtain ⟨e2, h2⟩ := h2run
    obtain ⟨hlab2, hcu2, hce2, -⟩ := enrich_ok_facts _ hSs hstS h2
    refine ⟨e2, h2, ?_⟩
    intro L hL
    have hL2 : L = "urgency_marketing" ∨ L = "exclusive_marketing" := by
      simpa [dictLabels, dictionaries] using hL
    rcases hL2 with rfl | rfl
    · rw [hcu2, hcu]
    · rw [hce2, hce]
  · unfold enrich_dataframe at h1
    rw [if_neg hS] at h1
    exact absurd h1 (by simp)

/-- The hypothesis of `enrich_idempotent_on_bool_columns` is satisfiable:
`dfW` enriches to `dfWOut`. -/
theorem enrich_idempotent_on_bool_columns_witness :
    ∃ e2, enrich_dataframe (stripDerived dfWOut) = Except.ok e2 ∧
      ∀ L ∈ dictLabels, e2.getCol L = dfWOut.getCol L :=
  enrich_idempotent_on_bool_columns dfW dfWOut (by rfl)

end Marketing
